import Mathlib

/-!
Shallow embedding of the logrus_fluent hook (src/fluent.go): the field
transformation and tag resolution pipeline of the Fire method, together
with the hook constructor and accessors.  Go maps over string keys are
modelled as association lists with overwrite-on-insert; dynamic
interface values are modelled as a closed sum type Value.
-/

namespace LogrusFluent

/-- Dynamic field values (Go interface values stored in logrus.Fields):
a closed sum covering the cases the pipeline distinguishes (string vs
anything else). -/
inductive Value where
  | str : String → Value
  | int : Int → Value
  | bool : Bool → Value
  | null : Value
deriving DecidableEq, Repr

/-- logrus.Fields: a map from field name to dynamic value, modelled as an
association list (unique keys maintained by overwrite-on-insert). -/
abbrev Fields := List (String × Value)

/-- Map lookup (Go `v, ok := m[k]`). -/
def assocLookup {α : Type _} : List (String × α) → String → Option α
  | [], _ => none
  | p :: rest, k => if p.1 = k then some p.2 else assocLookup rest k

/-- Map assignment (Go `m[k] = v`): overwrite the key if present,
otherwise append. -/
def assocInsert {α : Type _} : List (String × α) → String → α → List (String × α)
  | [], k, v => [(k, v)]
  | p :: rest, k, v => if p.1 = k then (k, v) :: rest else p :: assocInsert rest k v

/-- Map deletion (Go `delete(m, k)`). -/
def eraseF : Fields → String → Fields
  | [], _ => []
  | p :: rest, k => if p.1 = k then eraseF rest k else p :: eraseF rest k

/-- The keys of a field map. -/
def keysF (d : Fields) : List String := d.map Prod.fst

/-- logrus severity levels. -/
inductive Level where
  | panic | fatal | error | warn | info | debug | trace
deriving DecidableEq, Repr

/-- logrus Level.String(): canonical string form of a severity. -/
def Level.string : Level → String
  | .panic => "panic"
  | .fatal => "fatal"
  | .error => "error"
  | .warn => "warning"
  | .info => "info"
  | .debug => "debug"
  | .trace => "trace"

/-- logrus.Entry: severity, rendered message and structured fields. -/
structure Entry where
  level : Level
  message : String
  data : Fields

/-- TagField is the logrus field name used as fluentd tag. -/
def TagField : String := "tag"

/-- MessageField is the logrus field name used as message. -/
def MessageField : String := "message"

/-- defaultLevels from fluent.go. -/
def defaultLevels : List Level :=
  [Level.panic, Level.fatal, Level.error, Level.warn, Level.info]

/-- FluentHook: the hook state relevant to the transformation pipeline
(the fluentd client and raw config are transport concerns, omitted). -/
structure FluentHook where
  levels : List Level
  tag : Option String
  messageField : String
  ignoreFields : List String
  filters : List (String × (Value → Value))
  customizers : List (Entry → Fields → Fields)

/-- Config: the configuration fields NewWithConfig consumes for the
pipeline (host, port and connection options are transport concerns). -/
structure Config where
  logLevels : List Level
  defaultTag : String
  defaultMessageField : String
  defaultIgnoreFields : List String
  defaultFilters : List (String × (Value → Value))

/-- NewWithConfig: hook construction (the connection setup is transport
and omitted; defaulting logic is translated exactly). -/
def NewWithConfig (conf : Config) : FluentHook :=
  { levels := if conf.logLevels.length = 0 then defaultLevels else conf.logLevels
    tag := if conf.defaultTag ≠ "" then some conf.defaultTag else none
    messageField :=
      if conf.defaultMessageField ≠ "" then conf.defaultMessageField else MessageField
    ignoreFields := conf.defaultIgnoreFields
    filters := conf.defaultFilters
    customizers := [] }

/-- Levels returns logging level to fire this hook. -/
def FluentHook.Levels (hook : FluentHook) : List Level := hook.levels

/-- SetLevels sets logging level to fire this hook. -/
def FluentHook.SetLevels (hook : FluentHook) (levels : List Level) : FluentHook :=
  { hook with levels := levels }

/-- Tag returns custom static tag. -/
def FluentHook.Tag (hook : FluentHook) : String :=
  match hook.tag with
  | none => ""
  | some t => t

/-- SetTag sets custom static tag to override tag in the message fields. -/
def FluentHook.SetTag (hook : FluentHook) (tag : String) : FluentHook :=
  { hook with tag := some tag }

/-- SetMessageField sets custom message field. -/
def FluentHook.SetMessageField (hook : FluentHook) (messageField : String) : FluentHook :=
  { hook with messageField := messageField }

/-- AddIgnore adds field name to ignore. -/
def FluentHook.AddIgnore (hook : FluentHook) (name : String) : FluentHook :=
  { hook with ignoreFields := hook.ignoreFields ++ [name] }

/-- AddFilter adds a custom filter function. -/
def FluentHook.AddFilter (hook : FluentHook) (name : String)
    (fn : Value → Value) : FluentHook :=
  { hook with filters := assocInsert hook.filters name fn }

/-- AddCustomizer adds a custom function to modify data. -/
def FluentHook.AddCustomizer (hook : FluentHook)
    (fn : Entry → Fields → Fields) : FluentHook :=
  { hook with customizers := hook.customizers ++ [fn] }

/-- The field copy loop of Fire: iterate over the entry data with the
outbound record as accumulator; skip ignored names, apply a registered
filter, store the pair. -/
def fieldCopy (hook : FluentHook) : Fields → Fields → Fields
  | acc, [] => acc
  | acc, (k, v) :: rest =>
    if k ∈ hook.ignoreFields then fieldCopy hook acc rest
    else
      match assocLookup hook.filters k with
      | some fn => fieldCopy hook (assocInsert acc k (fn v)) rest
      | none => fieldCopy hook (assocInsert acc k v) rest

/-- setLevelString: stamp the canonical severity string. -/
def setLevelString (entry : Entry) (data : Fields) : Fields :=
  assocInsert data "level" (Value.str entry.level.string)

/-- setMessage: if the message field is already set leave it, otherwise
derive it from entry.Message through a registered filter. -/
def FluentHook.setMessage (hook : FluentHook) (entry : Entry) (data : Fields) : Fields :=
  match assocLookup data hook.messageField with
  | some _ => data
  | none =>
    match assocLookup hook.filters hook.messageField with
    | some fn => assocInsert data hook.messageField (fn (Value.str entry.message))
    | none => assocInsert data hook.messageField (Value.str entry.message)

/-- getTagAndDel: resolve the routing tag; static tag wins, then a
string-valued tag field (which is deleted), else entry.Message. -/
def FluentHook.getTagAndDel (hook : FluentHook) (entry : Entry) (data : Fields) :
    String × Fields :=
  match hook.tag with
  | some t => (t, data)
  | none =>
    match assocLookup data TagField with
    | none => (entry.message, data)
    | some tagField =>
      match tagField with
      | Value.str tag => (tag, eraseF data TagField)
      | _ => (entry.message, data)

/-- The customization pass of Fire: run the customizers in registration
order over the record. -/
def runCustomizers (cs : List (Entry → Fields → Fields)) (entry : Entry)
    (data : Fields) : Fields :=
  cs.foldl (fun d fn => fn entry d) data

/-- The record built by Fire before the customization pass: field copy,
then level stamping, then message stamping. -/
def preCustomizerRecord (hook : FluentHook) (entry : Entry) : Fields :=
  hook.setMessage entry (setLevelString entry (fieldCopy hook [] entry.data))

/-- The record built by Fire after the customization pass, just before
tag resolution. -/
def afterCustomizersRecord (hook : FluentHook) (entry : Entry) : Fields :=
  runCustomizers hook.customizers entry (preCustomizerRecord hook entry)

/-- Fire's transformation: entry to (tag, outbound record).  The
transport send of the result is external. -/
def FluentHook.Fire (hook : FluentHook) (entry : Entry) : String × Fields :=
  let data := fieldCopy hook [] entry.data
  let data1 := setLevelString entry data
  let data2 := hook.setMessage entry data1
  let data3 := runCustomizers hook.customizers entry data2
  hook.getTagAndDel entry data3

/-- The filter application of the field copy pass, factored for
statements about copied values. -/
def applyFilter (hook : FluentHook) (k : String) (v : Value) : Value :=
  match assocLookup hook.filters k with
  | some fn => fn v
  | none => v

end LogrusFluent

namespace LogrusFluent

theorem assocLookup_insert_self {α : Type _} (d : List (String × α)) (k : String) (v : α) :
    assocLookup (assocInsert d k v) k = some v := by
  induction d with
  | nil => simp [assocInsert, assocLookup]
  | cons p rest ih =>
    by_cases h : p.1 = k
    · simp [assocInsert, h, assocLookup]
    · simp [assocInsert, h, assocLookup, ih]

theorem assocLookup_insert_ne {α : Type _} (d : List (String × α)) (k k2 : String) (v : α)
    (h : k ≠ k2) : assocLookup (assocInsert d k v) k2 = assocLookup d k2 := by
  induction d with
  | nil => simp [assocInsert, assocLookup, h]
  | cons p rest ih =>
    by_cases hp : p.1 = k
    · simp [assocInsert, hp, assocLookup, h]
    · simp [assocInsert, hp, assocLookup, ih]

theorem assocLookup_eraseF_self (d : Fields) (k : String) :
    assocLookup (eraseF d k) k = none := by
  induction d with
  | nil => simp [eraseF, assocLookup]
  | cons p rest ih =>
    by_cases h : p.1 = k
    · simp [eraseF, h, ih]
    · simp [eraseF, h, assocLookup, ih]

theorem assocLookup_eraseF_ne (d : Fields) (k k2 : String) (h : k ≠ k2) :
    assocLookup (eraseF d k) k2 = assocLookup d k2 := by
  induction d with
  | nil => simp [eraseF]
  | cons p rest ih =>
    by_cases hp : p.1 = k
    · simp [eraseF, hp, assocLookup, h, ih]
    · simp [eraseF, hp, assocLookup, ih]

theorem fieldCopy_lookup_ignored (hook : FluentHook) (k : String)
    (hk : k ∈ hook.ignoreFields) (l : Fields) :
    ∀ acc : Fields, assocLookup (fieldCopy hook acc l) k = assocLookup acc k := by
  induction l with
  | nil => intro acc; simp [fieldCopy]
  | cons p rest ih =>
    intro acc
    obtain ⟨k1, v1⟩ := p
    by_cases h1 : k1 ∈ hook.ignoreFields
    · simp only [fieldCopy, if_pos h1]; exact ih acc
    · have hne : k1 ≠ k := fun he => h1 (he ▸ hk)
      cases hf : assocLookup hook.filters k1 with
      | none =>
        simp only [fieldCopy, if_neg h1, hf]
        rw [ih, assocLookup_insert_ne _ _ _ _ hne]
      | some fn =>
        simp only [fieldCopy, if_neg h1, hf]
        rw [ih, assocLookup_insert_ne _ _ _ _ hne]

theorem fieldCopy_lookup_not_mem (hook : FluentHook) (k : String) (l : Fields) :
    ∀ acc : Fields, k ∉ keysF l →
      assocLookup (fieldCopy hook acc l) k = assocLookup acc k := by
  induction l with
  | nil => intro acc _; simp [fieldCopy]
  | cons p rest ih =>
    intro acc hmem
    obtain ⟨k1, v1⟩ := p
    have hne : k1 ≠ k := by
      intro he
      exact hmem (by simp [keysF, he])
    have hrest : k ∉ keysF rest := by
      intro hr
      exact hmem (by simp [keysF] at hr ⊢; exact Or.inr hr)
    by_cases h1 : k1 ∈ hook.ignoreFields
    · simp only [fieldCopy, if_pos h1]; exact ih acc hrest
    · cases hf : assocLookup hook.filters k1 with
      | none =>
        simp only [fieldCopy, if_neg h1, hf]
        rw [ih _ hrest, assocLookup_insert_ne _ _ _ _ hne]
      | some fn =>
        simp only [fieldCopy, if_neg h1, hf]
        rw [ih _ hrest, assocLookup_insert_ne _ _ _ _ hne]

theorem fieldCopy_lookup_found (hook : FluentHook) (k : String) (v : Value)
    (hki : k ∉ hook.ignoreFields) (l : Fields) :
    ∀ acc : Fields, (keysF l).Nodup → assocLookup l k = some v →
      assocLookup (fieldCopy hook acc l) k = some (applyFilter hook k v) := by
  induction l with
  | nil => intro acc _ hv; simp [assocLookup] at hv
  | cons p rest ih =>
    intro acc hnd hv
    obtain ⟨k1, v1⟩ := p
    rw [show keysF ((k1, v1) :: rest) = k1 :: keysF rest from rfl, List.nodup_cons] at hnd
    have hnd1 : (keysF rest).Nodup := hnd.2
    by_cases he : k1 = k
    · subst he
      have hv1 : v1 = v := by
        simp [assocLookup] at hv; exact hv
      subst hv1
      have hrest : k1 ∉ keysF rest := hnd.1
      cases hf : assocLookup hook.filters k1 with
      | none =>
        simp only [fieldCopy, if_neg hki, hf]
        rw [fieldCopy_lookup_not_mem hook k1 rest _ hrest, assocLookup_insert_self]
        simp [applyFilter, hf]
      | some fn =>
        simp only [fieldCopy, if_neg hki, hf]
        rw [fieldCopy_lookup_not_mem hook k1 rest _ hrest, assocLookup_insert_self]
        simp [applyFilter, hf]
    · have hv2 : assocLookup rest k = some v := by
        simpa [assocLookup, he] using hv
      by_cases h1 : k1 ∈ hook.ignoreFields
      · simp only [fieldCopy, if_pos h1]; exact ih acc hnd1 hv2
      · cases hf : assocLookup hook.filters k1 with
        | none =>
          simp only [fieldCopy, if_neg h1, hf]
          exact ih _ hnd1 hv2
        | some fn =>
          simp only [fieldCopy, if_neg h1, hf]
          exact ih _ hnd1 hv2

theorem setMessage_of_present (hook : FluentHook) (entry : Entry) (d : Fields)
    (h : (assocLookup d hook.messageField).isSome) :
    hook.setMessage entry d = d := by
  unfold FluentHook.setMessage
  cases hm : assocLookup d hook.messageField with
  | none => rw [hm] at h; simp at h
  | some w => simp

theorem setMessage_lookup_ne (hook : FluentHook) (entry : Entry) (d : Fields)
    (k : String) (h : k ≠ hook.messageField) :
    assocLookup (hook.setMessage entry d) k = assocLookup d k := by
  unfold FluentHook.setMessage
  cases hm : assocLookup d hook.messageField with
  | none =>
    cases hf : assocLookup hook.filters hook.messageField with
    | none => simp [assocLookup_insert_ne _ _ _ _ (Ne.symm h)]
    | some fn => simp [assocLookup_insert_ne _ _ _ _ (Ne.symm h)]
  | some w => simp

theorem Fire_decomp (hook : FluentHook) (entry : Entry) :
    hook.Fire entry = hook.getTagAndDel entry (afterCustomizersRecord hook entry) := rfl

end LogrusFluent

namespace LogrusFluent

/-- C5: if the hook has a static tag configured, tag resolution returns
that static tag and the record is returned unmodified (any tag-named
field is preserved); Fire's resolved tag equals the static tag. -/
theorem c5_static_tag (hook : FluentHook) (entry : Entry) (data : Fields) (t : String)
    (h : hook.tag = some t) :
    hook.getTagAndDel entry data = (t, data) ∧ (hook.Fire entry).1 = t := by
  constructor
  · unfold FluentHook.getTagAndDel; rw [h]
  · rw [Fire_decomp]; unfold FluentHook.getTagAndDel; rw [h]

/-- C5 witness: concrete hook with static tag and a tag-named field. -/
theorem c5_static_tag_witness :
    FluentHook.getTagAndDel
        { levels := defaultLevels, tag := some "fixed.tag", messageField := "message",
          ignoreFields := [], filters := [], customizers := [] }
        { level := Level.error, message := "boom", data := [("tag", Value.str "svc.errors")] }
        [("tag", Value.str "svc.errors")]
      = ("fixed.tag", [("tag", Value.str "svc.errors")]) :=
  (c5_static_tag _ _ _ "fixed.tag" rfl).1

/-- C6: with no static tag and a string-valued reserved tag field in the
record, the resolved tag is that string, the tag key is removed, and all
other keys are unchanged. -/
theorem c6_record_tag (hook : FluentHook) (entry : Entry) (data : Fields) (s : String)
    (h : hook.tag = none)
    (hs : assocLookup data TagField = some (Value.str s)) :
    (hook.getTagAndDel entry data).1 = s
    ∧ assocLookup (hook.getTagAndDel entry data).2 TagField = none
    ∧ ∀ k, k ≠ TagField →
        assocLookup (hook.getTagAndDel entry data).2 k = assocLookup data k := by
  have hg : hook.getTagAndDel entry data = (s, eraseF data TagField) := by
    unfold FluentHook.getTagAndDel; rw [h, hs]
  rw [hg]
  refine ⟨rfl, assocLookup_eraseF_self data TagField, ?_⟩
  intro k hk
  exact assocLookup_eraseF_ne data TagField k (Ne.symm hk)

/-- C6 witness: concrete record with a string tag field. -/
theorem c6_record_tag_witness :
    (FluentHook.getTagAndDel
        { levels := defaultLevels, tag := none, messageField := "message",
          ignoreFields := [], filters := [], customizers := [] }
        { level := Level.error, message := "boom", data := [] }
        [("tag", Value.str "svc.errors"), ("user", Value.int 42)]).1 = "svc.errors" :=
  (c6_record_tag _ _ [("tag", Value.str "svc.errors"), ("user", Value.int 42)]
    "svc.errors" rfl rfl).1

/-- C7: with no static tag, an absent tag field resolves to the entry
message with the record unchanged; a present but non-string tag field
also resolves to the entry message with the record unchanged. -/
theorem c7_fallback (hook : FluentHook) (entry : Entry) (data : Fields)
    (h : hook.tag = none) :
    (assocLookup data TagField = none →
      hook.getTagAndDel entry data = (entry.message, data))
    ∧ (∀ v, assocLookup data TagField = some v → (∀ s, v ≠ Value.str s) →
        hook.getTagAndDel entry data = (entry.message, data)) := by
  constructor
  · intro hn; unfold FluentHook.getTagAndDel; rw [h, hn]
  · intro v hv hns
    unfold FluentHook.getTagAndDel
    rw [h, hv]
    cases v with
    | str s => exact absurd rfl (hns s)
    | int n => rfl
    | bool b => rfl
    | null => rfl

/-- C7 witness: concrete record with a non-string tag field. -/
theorem c7_fallback_witness :
    FluentHook.getTagAndDel
        { levels := defaultLevels, tag := none, messageField := "message",
          ignoreFields := [], filters := [], customizers := [] }
        { level := Level.error, message := "boom", data := [] }
        [("tag", Value.int 3)]
      = ("boom", [("tag", Value.int 3)]) :=
  (c7_fallback _ _ [("tag", Value.int 3)] rfl).2 (Value.int 3) rfl
    (fun _ hcontra => Value.noConfusion hcontra)

/-- C8: with an empty configured level list, the constructed hook's
Levels is exactly panic, fatal, error, warn, info (no debug, no trace);
with a non-empty list, Levels is that list. -/
theorem c8_default_levels (conf : Config) :
    (conf.logLevels = [] →
      (NewWithConfig conf).Levels
        = [Level.panic, Level.fatal, Level.error, Level.warn, Level.info])
    ∧ (conf.logLevels ≠ [] → (NewWithConfig conf).Levels = conf.logLevels) := by
  constructor
  · intro h
    simp [NewWithConfig, FluentHook.Levels, h, defaultLevels]
  · intro h
    have hlen : conf.logLevels.length ≠ 0 := by simpa using h
    simp [NewWithConfig, FluentHook.Levels, hlen]

/-- C8 witness: empty configured level list yields the default set. -/
theorem c8_default_levels_witness :
    (NewWithConfig
        { logLevels := [], defaultTag := "", defaultMessageField := "",
          defaultIgnoreFields := [], defaultFilters := [] }).Levels
      = [Level.panic, Level.fatal, Level.error, Level.warn, Level.info] :=
  (c8_default_levels _).1 rfl

/-- C10: SetTag with the empty string installs a non-nil static tag equal
to the empty string, so tag resolution returns that empty string without
consulting or mutating the record; and Tag returns the empty string both
for the never-set state and for the set-to-empty state. -/
theorem c10_empty_tag (hook : FluentHook) (entry : Entry) (data : Fields) :
    (hook.SetTag "").tag = some ""
    ∧ (hook.SetTag "").getTagAndDel entry data = ("", data)
    ∧ FluentHook.Tag { hook with tag := none } = ""
    ∧ (hook.SetTag "").Tag = "" :=
  ⟨rfl, rfl, rfl, rfl⟩

end LogrusFluent

namespace LogrusFluent

/-- C4: with no customizers registered, the record Fire returns maps the
level key to the canonical string form of the entry severity, even when
the entry data carries a conflicting level field (the stamp overwrites
the copied field). -/
theorem c4_level_stamp (hook : FluentHook) (entry : Entry)
    (hc : hook.customizers = []) :
    assocLookup (hook.Fire entry).2 "level" = some (Value.str entry.level.string) := by
  have h1 : assocLookup (setLevelString entry (fieldCopy hook [] entry.data)) "level"
      = some (Value.str entry.level.string) := assocLookup_insert_self _ _ _
  have h2 : assocLookup (preCustomizerRecord hook entry) "level"
      = some (Value.str entry.level.string) := by
    unfold preCustomizerRecord
    by_cases hm : hook.messageField = "level"
    · have hsome :
          (assocLookup (setLevelString entry (fieldCopy hook [] entry.data))
            hook.messageField).isSome := by
        rw [hm, h1]; rfl
      rw [setMessage_of_present hook entry _ hsome]
      exact h1
    · rw [setMessage_lookup_ne hook entry _ "level" (Ne.symm hm)]
      exact h1
  have h3 : afterCustomizersRecord hook entry = preCustomizerRecord hook entry := by
    unfold afterCustomizersRecord runCustomizers
    rw [hc]
    rfl
  rw [Fire_decomp, h3]
  unfold FluentHook.getTagAndDel
  cases ht : hook.tag with
  | some t => exact h2
  | none =>
    cases htf : assocLookup (preCustomizerRecord hook entry) TagField with
    | none => exact h2
    | some v =>
      cases v with
      | str s =>
        show assocLookup (eraseF (preCustomizerRecord hook entry) TagField) "level" = _
        rw [assocLookup_eraseF_ne _ _ _ (by decide : TagField ≠ "level")]
        exact h2
      | int n => exact h2
      | bool b => exact h2
      | null => exact h2

/-- C4 witness: entry with a conflicting user-supplied level field. -/
theorem c4_level_stamp_witness :
    assocLookup
        (FluentHook.Fire
          { levels := defaultLevels, tag := none, messageField := "message",
            ignoreFields := [], filters := [], customizers := [] }
          { level := Level.warn, message := "boom",
            data := [("level", Value.str "spoof")] }).2 "level"
      = some (Value.str "warning") :=
  c4_level_stamp _ _ rfl

/-- C9: Fire is the tag resolution applied to the customizer pass run in
registration order over the record built by field copy, level stamping
and message stamping; AddCustomizer appends at the end of the
registration order; and with no static tag, a string the customizer pass
leaves under the reserved tag field is the resolved tag. -/
theorem c9_customizer_order (hook : FluentHook) (entry : Entry) :
    hook.Fire entry
      = hook.getTagAndDel entry
          (runCustomizers hook.customizers entry (preCustomizerRecord hook entry))
    ∧ (∀ fn, (hook.AddCustomizer fn).customizers = hook.customizers ++ [fn])
    ∧ (hook.tag = none → ∀ s,
        assocLookup
            (runCustomizers hook.customizers entry (preCustomizerRecord hook entry))
            TagField
          = some (Value.str s) →
        (hook.Fire entry).1 = s) := by
  refine ⟨rfl, fun fn => rfl, ?_⟩
  intro h s hs
  rw [Fire_decomp]
  unfold FluentHook.getTagAndDel
  rw [h]
  have hrw : afterCustomizersRecord hook entry
      = runCustomizers hook.customizers entry (preCustomizerRecord hook entry) := rfl
  rw [hrw, hs]

/-- C9 witness: a customizer writes the tag field and determines the
resolved tag. -/
theorem c9_customizer_order_witness :
    (FluentHook.Fire
        { levels := defaultLevels, tag := none, messageField := "message",
          ignoreFields := [], filters := [],
          customizers := [fun _ d => assocInsert d "tag" (Value.str "cust.tag")] }
        { level := Level.info, message := "boom", data := [] }).1 = "cust.tag" :=
  (c9_customizer_order _ _).2.2 rfl "cust.tag" rfl

end LogrusFluent

namespace LogrusFluent

/-- Concrete hook with a static tag, used to refute the unconditional
tag-key invariant. -/
def hookX1a : FluentHook :=
  { levels := defaultLevels, tag := some "fixed", messageField := "message",
    ignoreFields := [], filters := [], customizers := [] }

/-- Concrete entry carrying a string-valued tag field. -/
def entryX1a : Entry :=
  { level := Level.error, message := "boom", data := [("tag", Value.str "svc")] }

/-- Concrete hook without a static tag. -/
def hookX1b : FluentHook :=
  { levels := defaultLevels, tag := none, messageField := "message",
    ignoreFields := [], filters := [], customizers := [] }

/-- Concrete entry carrying a non-string tag field. -/
def entryX1b : Entry :=
  { level := Level.error, message := "boom", data := [("tag", Value.int 3)] }

/-- C1 counterexample: with a static tag configured, and likewise with a
non-string tag value, the record returned by Fire still contains the
reserved tag key, refuting the unconditional invariant. -/
theorem c1_tag_key_cex :
    hookX1a.tag = some "fixed"
    ∧ assocLookup (FluentHook.Fire hookX1a entryX1a).2 TagField = some (Value.str "svc")
    ∧ hookX1b.tag = none
    ∧ assocLookup (FluentHook.Fire hookX1b entryX1b).2 TagField = some (Value.int 3) :=
  ⟨rfl, rfl, rfl, rfl⟩

/-- C1 (amended): if no static tag is configured and the record after
the customizer pass holds at most a string value under the reserved tag
field, the record returned by Fire does not contain the tag key. -/
theorem c1_amended (hook : FluentHook) (entry : Entry)
    (h : hook.tag = none)
    (hv : assocLookup (afterCustomizersRecord hook entry) TagField = none
      ∨ ∃ s, assocLookup (afterCustomizersRecord hook entry) TagField
          = some (Value.str s)) :
    assocLookup (hook.Fire entry).2 TagField = none := by
  rw [Fire_decomp]
  unfold FluentHook.getTagAndDel
  rw [h]
  rcases hv with hn | ⟨s, hs⟩
  · rw [hn]
    exact hn
  · rw [hs]
    exact assocLookup_eraseF_self _ _

/-- C1 (amended) witness: string tag field, no static tag. -/
theorem c1_amended_witness :
    assocLookup (FluentHook.Fire hookX1b
        { level := Level.error, message := "boom",
          data := [("tag", Value.str "svc"), ("user", Value.int 42)] }).2 TagField
      = none :=
  c1_amended hookX1b _ rfl (Or.inr ⟨"svc", rfl⟩)

/-- The message filter used in the C2 refutation and witness. -/
def fnX2 : Value → Value := fun _ => Value.str "FILTERED"

/-- Concrete hook with a filter registered on the message field. -/
def hookX2 : FluentHook :=
  { levels := defaultLevels, tag := none, messageField := "message",
    ignoreFields := [], filters := [("message", fnX2)], customizers := [] }

/-- Concrete entry supplying the message field explicitly. -/
def entryX2 : Entry :=
  { level := Level.error, message := "boom",
    data := [("message", Value.str "explicit")] }

/-- C2 counterexample: with a filter registered on the message field and
a caller-supplied message field, the field copy pass applies the filter
to the caller-supplied value, so the output is the filtered value and
not the caller-supplied one. -/
theorem c2_message_filter_cex :
    assocLookup (FluentHook.Fire hookX2 entryX2).2 "message"
      = some (Value.str "FILTERED")
    ∧ assocLookup (FluentHook.Fire hookX2 entryX2).2 "message"
      ≠ some (Value.str "explicit") :=
  ⟨rfl, by decide⟩

/-- C2 (amended): when the entry data supplies the message field (with
distinct keys, the field not ignored, a filter registered for it, and
the message field name distinct from the level key), the record before
customizers maps the message field to the filter applied once to the
caller-supplied value by the field copy pass; setMessage leaves any
record that already contains the message field untouched, so its
derived-message filter path runs only when the value is derived from
entry.Message. -/
theorem c2_amended (hook : FluentHook) (entry : Entry) (v : Value) (fn : Value → Value)
    (hnd : (keysF entry.data).Nodup)
    (hmem : assocLookup entry.data hook.messageField = some v)
    (hni : hook.messageField ∉ hook.ignoreFields)
    (hf : assocLookup hook.filters hook.messageField = some fn)
    (hlevel : hook.messageField ≠ "level") :
    assocLookup (preCustomizerRecord hook entry) hook.messageField = some (fn v)
    ∧ ∀ d : Fields, (assocLookup d hook.messageField).isSome →
        hook.setMessage entry d = d := by
  constructor
  · have hcopy : assocLookup (fieldCopy hook [] entry.data) hook.messageField
        = some (applyFilter hook hook.messageField v) :=
      fieldCopy_lookup_found hook _ v hni entry.data [] hnd hmem
    have hstamp :
        assocLookup (setLevelString entry (fieldCopy hook [] entry.data))
          hook.messageField
        = some (applyFilter hook hook.messageField v) := by
      unfold setLevelString
      rw [assocLookup_insert_ne _ _ _ _ (Ne.symm hlevel)]
      exact hcopy
    unfold preCustomizerRecord
    rw [setMessage_of_present hook entry _ (by rw [hstamp]; rfl)]
    rw [hstamp]
    unfold applyFilter
    rw [hf]
  · intro d hd
    exact setMessage_of_present hook entry d hd

/-- C2 (amended) witness: the concrete caller-supplied message value
comes out as the filter applied to it. -/
theorem c2_amended_witness :
    assocLookup (preCustomizerRecord hookX2 entryX2) "message"
      = some (Value.str "FILTERED") :=
  (c2_amended hookX2 entryX2 (Value.str "explicit") fnX2
    (by decide) rfl (by decide) rfl (by decide)).1

/-- Concrete hook ignoring the level key. -/
def hookX3a : FluentHook :=
  { levels := defaultLevels, tag := none, messageField := "message",
    ignoreFields := ["level"], filters := [], customizers := [] }

/-- Concrete hook ignoring the message field name. -/
def hookX3b : FluentHook :=
  { levels := defaultLevels, tag := none, messageField := "message",
    ignoreFields := ["message"], filters := [], customizers := [] }

/-- Concrete entry for the ignore refutation. -/
def entryX3 : Entry :=
  { level := Level.info, message := "boom", data := [("level", Value.str "spoof")] }

/-- C3 counterexample: with the level key in the ignore set it still
appears in the pre-customizer record (level stamping re-adds it), and
with the message field name in the ignore set it still appears (message
stamping re-adds it), refuting the claim for those two names. -/
theorem c3_ignored_cex :
    ("level" ∈ hookX3a.ignoreFields
      ∧ assocLookup (preCustomizerRecord hookX3a entryX3) "level"
          = some (Value.str "info"))
    ∧ ("message" ∈ hookX3b.ignoreFields
      ∧ hookX3b.messageField = "message"
      ∧ assocLookup (preCustomizerRecord hookX3b entryX3) "message"
          = some (Value.str "boom")) :=
  ⟨⟨by decide, rfl⟩, by decide, rfl, rfl⟩

/-- C3 (amended): every name in the ignore set other than the level key
and the configured message field name is absent from the record before
customizers run, regardless of registered filters. -/
theorem c3_amended (hook : FluentHook) (entry : Entry) (k : String)
    (hk : k ∈ hook.ignoreFields) (hl : k ≠ "level") (hm : k ≠ hook.messageField) :
    assocLookup (preCustomizerRecord hook entry) k = none := by
  unfold preCustomizerRecord
  rw [setMessage_lookup_ne hook entry _ k hm]
  unfold setLevelString
  rw [assocLookup_insert_ne _ _ _ _ (Ne.symm hl)]
  rw [fieldCopy_lookup_ignored hook k hk entry.data []]
  rfl

/-- C3 (amended) witness: an ignored ordinary field, with a filter also
registered for it, is absent. -/
theorem c3_amended_witness :
    assocLookup
        (preCustomizerRecord
          { levels := defaultLevels, tag := none, messageField := "message",
            ignoreFields := ["user"], filters := [("user", fun v => v)],
            customizers := [] }
          { level := Level.info, message := "boom",
            data := [("user", Value.int 42)] })
        "user"
      = none :=
  c3_amended _ _ "user" (by decide) (by decide) (by decide)

end LogrusFluent
